import Mathlib

/-!
Verification of the query translation and result-marshalling layer of the
langchain-prolog adapter, and of the travel-agent example rules file
`routes.pl` shipped with it.

The adapter's Python sources are not part of the source tree given here
(only its documentation, notebooks and example rule files are), so the
translator, engine session and marshaller are modelled from the spec, while
`routes.pl` is embedded directly from its source.
-/

namespace LangchainProlog

/-- A flat Prolog term of the fragment exercised by the adapter: a logic
variable or an atomic constant. -/
inductive Term where
  | var : String → Term
  | const : String → Term
deriving DecidableEq

/-- A literal: a predicate name applied to a list of terms. -/
structure Lit where
  pred : String
  args : List Term
deriving DecidableEq

/-- A definite clause `head :- body`. Facts have an empty body. -/
structure Clause where
  head : Lit
  body : List Lit
deriving DecidableEq

/-- A triangular substitution: an association list from variable names to
terms. -/
abbrev Subst := List (String × Term)

def assocVar : List (String × Term) → String → Option Term
  | [], _ => none
  | (k, t) :: rest, v => if k = v then some t else assocVar rest v

/-- Follow variable links, with an explicit step bound. -/
def walk (s : Subst) : Nat → Term → Term
  | 0, t => t
  | n + 1, Term.var v =>
    match assocVar s v with
    | some t2 => walk s n t2
    | none => Term.var v
  | _ + 1, t => t

/-- Resolve a term through a substitution. -/
def resolve (s : Subst) (t : Term) : Term :=
  walk s (s.length + 1) t

/-- Unify two terms under a substitution. -/
def unify (s : Subst) (t1 t2 : Term) : Option Subst :=
  match resolve s t1, resolve s t2 with
  | Term.const a, Term.const b => if a = b then some s else none
  | Term.var v, Term.var w => if v = w then some s else some ((v, Term.var w) :: s)
  | Term.var v, t => some ((v, t) :: s)
  | t, Term.var v => some ((v, t) :: s)

def unifyArgs : Subst → List Term → List Term → Option Subst
  | s, [], [] => some s
  | s, t :: ts, u :: us =>
    match unify s t u with
    | some s2 => unifyArgs s2 ts us
    | none => none
  | _, _, _ => none

def unifyLit (s : Subst) (g h : Lit) : Option Subst :=
  if g.pred = h.pred then unifyArgs s g.args h.args else none

/-- Rename a clause variable apart by prepending `k` hash marks. -/
def renameTerm (k : Nat) : Term → Term
  | Term.var v => Term.var ((⟨List.replicate k '#'⟩ : String) ++ v)
  | t => t

def renameLit (k : Nat) (l : Lit) : Lit :=
  ⟨l.pred, l.args.map (renameTerm k)⟩

def renameClause (k : Nat) (c : Clause) : Clause :=
  ⟨renameLit k c.head, c.body.map (renameLit k)⟩

/-- SLD resolution with leftmost goal selection and clauses tried in the
order they appear in the rules file, which is SWI-Prolog's enumeration
order. `k` numbers resolution steps so clause variables are renamed apart. -/
def solveGoals (prog : List Clause) : Nat → List Lit → Subst → Nat → List Subst
  | 0, _, _, _ => []
  | _ + 1, [], s, _ => [s]
  | fuel + 1, g :: gs, s, k =>
    prog.flatMap (fun c =>
      let c2 := renameClause k c
      match unifyLit s g c2.head with
      | none => []
      | some s2 => solveGoals prog fuel (c2.body ++ gs) s2 (k + 1))

/-- All solutions of a single goal, in engine enumeration order. -/
def engineSolve (prog : List Clause) (g : Lit) : List Subst :=
  solveGoals prog 32 [g] [] 1

/-- True when a variable name is anonymous by SWI convention (leading `_`). -/
def startsUnderscore (v : String) : Bool :=
  match v.toList with
  | c :: _ => c = '_'
  | [] => false

def dedupFirstAux (seen : List String) : List String → List String
  | [] => []
  | x :: xs =>
    if x ∈ seen then dedupFirstAux seen xs
    else x :: dedupFirstAux (x :: seen) xs

/-- Remove duplicates keeping the first occurrence of each name. -/
def dedupFirst (l : List String) : List String := dedupFirstAux [] l

/-- The name a goal argument contributes to the binding dictionaries:
named variables only, anonymous (underscore-led) variables excluded. -/
def fvArg : Term → Option String
  | Term.var v => if startsUnderscore v then none else some v
  | Term.const _ => none

/-- The free variables syntactically named in a goal, in order of first
occurrence, excluding anonymous variables. -/
def freeVarNames (g : Lit) : List String :=
  dedupFirst (g.args.filterMap fvArg)

def termVal : Term → String
  | Term.const a => a
  | Term.var w => w

/-- One Binding: the goal's named free variables paired with their resolved
values in one solution. -/
def marshalSol (fv : List String) (s : Subst) : List (String × String) :=
  fv.map (fun v => (v, termVal (resolve s (Term.var v))))

def trimChars (cs : List Char) : List Char :=
  ((cs.dropWhile (· = ' ')).reverse.dropWhile (· = ' ')).reverse

def splitComma : List Char → List (List Char)
  | [] => [[]]
  | c :: cs =>
    match splitComma cs with
    | [] => [[c]]
    | g :: gs => if c = ',' then [] :: g :: gs else (c :: g) :: gs

/-- Classify a token by the Prolog lexical convention the adapter documents:
a leading uppercase letter or underscore means variable, anything else is a
value (atom). -/
def classifyToken (cs : List Char) : Term :=
  match cs with
  | [] => Term.const ""
  | c :: _ => if c.isUpper || c = '_' then Term.var ⟨cs⟩ else Term.const ⟨cs⟩

/-- Parse a flat goal string `pred(arg1, ..., argn)` (or a bare `pred`). -/
def parseGoal (s : String) : Lit :=
  let cs := s.toList
  let nameCs := cs.takeWhile (· ≠ '(')
  match cs.dropWhile (· ≠ '(') with
  | [] => ⟨⟨trimChars nameCs⟩, []⟩
  | _ :: inner =>
    let body :=
      match inner.reverse with
      | ')' :: t => t.reverse
      | _ => inner
    if trimChars body = [] then ⟨⟨trimChars nameCs⟩, []⟩
    else ⟨⟨trimChars nameCs⟩, (splitComma body).map (fun a => classifyToken (trimChars a))⟩

/-- First letter uppercased: the placeholder-to-variable naming convention. -/
def capitalize (s : String) : String :=
  match s.toList with
  | [] => ""
  | c :: cs => ⟨c.toUpper :: cs⟩

/-- The `family.pl` rules of the documented examples:
`parent(john, bianca, mary).` `parent(john, bianca, michael).`
`parent(peter, patricia, jennifer).` `partner(X, Y) :- parent(X, Y, _).` -/
def familyProgram : List Clause :=
  [ ⟨⟨"parent", [Term.const "john", Term.const "bianca", Term.const "mary"]⟩, []⟩,
    ⟨⟨"parent", [Term.const "john", Term.const "bianca", Term.const "michael"]⟩, []⟩,
    ⟨⟨"parent", [Term.const "peter", Term.const "patricia", Term.const "jennifer"]⟩, []⟩,
    ⟨⟨"partner", [Term.var "X", Term.var "Y"]⟩,
      [⟨"parent", [Term.var "X", Term.var "Y", Term.var "_"]⟩]⟩ ]

/-! The travel-agent example rules file `routes.pl`, embedded from source. -/

/-- A rational written as an explicit reduced fraction, so the kernel can
evaluate on it (the source writes `2.5` for `frac 5 2` and so on). -/
def frac (n : Int) (d : Nat) (hd : d ≠ 0) (hc : n.natAbs.Coprime d) : ℚ :=
  ⟨n, d, hd, hc⟩

abbrev City := String

/-- A `transport(Type, Time, Cost)` term: transport type, time in hours,
cost in euros. -/
structure Transport where
  ttype : String
  time : ℚ
  cost : ℚ
deriving DecidableEq

/-- The `connection/3` facts of `routes.pl`, in source order. -/
def connections : List (City × City × Transport) :=
  [ ("london", "paris", ⟨"train", frac 5 2 (by decide) (by decide), 150⟩),
    ("london", "paris", ⟨"plane", frac 3 2 (by decide) (by decide), 200⟩),
    ("paris", "rome", ⟨"plane", 2, 180⟩),
    ("paris", "barcelona", ⟨"plane", frac 3 2 (by decide) (by decide), 120⟩),
    ("paris", "madrid", ⟨"train", 2, 150⟩),
    ("barcelona", "madrid", ⟨"train", 3, 80⟩),
    ("madrid", "lisbon", ⟨"train", 4, 90⟩),
    ("rome", "athens", ⟨"ferry", 8, 120⟩),
    ("rome", "athens", ⟨"plane", frac 3 2 (by decide) (by decide), 160⟩),
    ("barcelona", "rome", ⟨"plane", 2, 140⟩) ]

/-- The `2.5` hours of the london–paris train connection, as a named
constant for concrete statements. -/
def twoPointFive : ℚ := frac 5 2 (by decide) (by decide)

/-- Solutions of `valid_connection(A, B, T)` with `A` and `B` bound: first
the `connection(A, B, T)` facts, then the `connection(B, A, T)` facts. -/
def validConnBetween (a b : City) : List Transport :=
  connections.filterMap (fun c => if c.1 = a ∧ c.2.1 = b then some c.2.2 else none)
    ++ connections.filterMap (fun c => if c.1 = b ∧ c.2.1 = a then some c.2.2 else none)

/-- Solutions of `valid_connection(A, Next, T)` with `A` bound and `Next`
free, as `(Next, T)` pairs in engine enumeration order. -/
def validConnFrom (a : City) : List (City × Transport) :=
  connections.filterMap (fun c => if c.1 = a then some (c.2.1, c.2.2) else none)
    ++ connections.filterMap (fun c => if c.2.1 = a then some (c.1, c.2.2) else none)

/-- One solution of `find_route/6`: the route, total time, total cost and
the final transport list of the `details/3` term. -/
abbrev RouteSol := List City × ℚ × ℚ × List Transport

/-- Solutions of `find_route(From, To, Visited, Route, AccTransport,
Details)` in clause order: the direct-connection base clause first, then the
recursive clause with cycle detection (`Next` not yet visited, target not
yet visited, fewer than 5 visited cities). The fuel argument only forces
termination in Lean; `findRoute_fuel_stable` below shows that any fuel
covering the source's own `length(Visited, Len), Len < 5` bound yields the
same solution list. -/
def findRoute : Nat → City → City → List City → List Transport → List RouteSol
  | 0, _, _, _, _ => []
  | fuel + 1, frm, dst, visited, acc =>
    (validConnBetween frm dst).map
      (fun t => ([frm, dst], t.time, t.cost, acc ++ [t]))
    ++ (validConnFrom frm).flatMap (fun nt =>
        if nt.1 ∈ visited then []
        else if dst ∈ visited then []
        else if visited.length < 5 then
          (findRoute fuel nt.1 dst (nt.1 :: visited) (acc ++ [nt.2])).map
            (fun s => (frm :: s.1, nt.2.time + s.2.1, nt.2.cost + s.2.2.1, s.2.2.2))
        else [])

/-- Solutions of `route(From, To, Route, Details)`:
`find_route(From, To, [From], Route, [], Details)`. -/
def routeSols (frm dst : City) : List RouteSol :=
  findRoute 6 frm dst [frm] []

/-- An element of the `Options` list of `query_route/5`. -/
inductive RouteOption where
  | maxTime (m : ℚ)
  | maxCost (m : ℚ)
  | maxChanges (m : Nat)
  | transportType (preferred : List String)
deriving DecidableEq

/-- `apply_options(Options, Time, Cost, Transport)`: an empty options list
succeeds via the cut clause; otherwise no listed constraint may be
violated. -/
def applyOptions (opts : List RouteOption) (time cost : ℚ) (transport : List Transport) : Bool :=
  match opts with
  | [] => true
  | _ :: _ =>
    (opts.all fun o =>
      match o with
      | RouteOption.maxTime m => decide (time ≤ m)
      | _ => true) &&
    (opts.all fun o =>
      match o with
      | RouteOption.maxCost m => decide (cost ≤ m)
      | _ => true) &&
    (opts.all fun o =>
      match o with
      | RouteOption.maxChanges m => decide (transport.length ≤ m + 1)
      | _ => true) &&
    (opts.all fun o =>
      match o with
      | RouteOption.transportType preferred => transport.all fun t => decide (t.ttype ∈ preferred)
      | _ => true)

/-- The dict built for one found route in `execute_query/5`. The transport
dicts carry the same three fields as the `transport/3` terms. -/
structure RouteDict where
  route : List City
  time : ℚ
  cost : ℚ
  transport : List Transport
deriving DecidableEq

/-- `transport_to_dict/2`. -/
def transportToDict (t : Transport) : Transport :=
  ⟨t.ttype, t.time, t.cost⟩

/-- The `findall/3` result `AllRoutes` of `execute_query/5`: every `route/4`
solution passing `apply_options/4`, converted to a dict, in enumeration
order. -/
def allRoutesOf (frm dst : City) (opts : List RouteOption) : List RouteDict :=
  (routeSols frm dst).filterMap (fun s =>
    if applyOptions opts s.2.1 s.2.2.1 s.2.2.2 then
      some ⟨s.1, s.2.1, s.2.2.1, s.2.2.2.map transportToDict⟩
    else none)

/-- `find_fastest_route/4`. -/
def findFastestAux : List RouteDict → ℚ → RouteDict → RouteDict
  | [], _, best => best
  | r :: rest, minT, best =>
    if r.time < minT then findFastestAux rest r.time r
    else findFastestAux rest minT best

/-- `find_cheapest_route/4`. -/
def findCheapestAux : List RouteDict → ℚ → RouteDict → RouteDict
  | [], _, best => best
  | r :: rest, minC, best =>
    if r.cost < minC then findCheapestAux rest r.cost r
    else findCheapestAux rest minC best

/-- Solutions of `select_routes(QueryType, AllRoutes, Results)` for the
`Results` argument. `select_routes(all, [Route|Rest], [Route|Rest])` only
matches a non-empty found-routes list; the fastest/cheapest heads likewise
require a non-empty list. -/
def selectRoutes : String → List RouteDict → List (List RouteDict)
  | "all", [] => []
  | "all", r :: rest => [r :: rest]
  | "fastest", [] => []
  | "fastest", r :: rest => [[findFastestAux rest r.time r]]
  | "cheapest", [] => []
  | "cheapest", r :: rest => [[findCheapestAux rest r.cost r]]
  | _, _ => []

/-- The argument shapes passed to `query_route/5` by the adapter: a Prolog
atom, a number, or an options list. -/
inductive PTerm where
  | patom (s : String)
  | pnum (q : ℚ)
  | plist (opts : List RouteOption)
deriving DecidableEq

def PTerm.isAtom : PTerm → Bool
  | PTerm.patom _ => true
  | _ => false

def PTerm.isList : PTerm → Bool
  | PTerm.plist _ => true
  | _ => false

def PTerm.atomName : PTerm → String
  | PTerm.patom s => s
  | _ => ""

def PTerm.listOpts : PTerm → List RouteOption
  | PTerm.plist l => l
  | _ => []

/-- A Prolog-level exception raised inside the engine: a `must_be/2`
type-guard violation, or the `invalid_query_type` throw of `query_route/5`. -/
inductive PrologExn where
  | typeError (expected : String) (culprit : PTerm)
  | invalidQueryType (culprit : PTerm)
deriving DecidableEq

/-! The adapter layer, modelled from the spec. -/

/-- Modelled from the spec: the adapter's per-call error. `QueryError` wraps
empty or malformed input and any Prolog-level engine exception; the raw
engine exception is never the adapter's result type. -/
inductive QueryError where
  | emptyQuery
  | invalidInput (msg : String)
  | engineError (e : PrologExn)
deriving DecidableEq

/-- Modelled from the spec: the QueryResult union — a boolean for goals
with no free variables (and for unsatisfiable goals), else the ordered
binding list. -/
inductive QueryResult where
  | bool (b : Bool)
  | bindings (l : List (List (String × String)))
deriving DecidableEq

/-- Modelled from the spec: a query schema — a predicate name bound to an
ordered list of parameter names (`PrologRunnable.create_schema`). -/
structure QuerySchema where
  pred : String
  params : List String
deriving DecidableEq

/-- Modelled from the spec: the configuration holder (`PrologConfig`). -/
structure PrologConfig where
  rulesFile : String
  defaultPredicate : Option String
  querySchema : Option QuerySchema
deriving DecidableEq

/-- Modelled from the spec: the two input shapes of structured invocation —
a raw query string, or a mapping from parameter names to values, where
`none` is the placeholder sentinel. -/
inductive QueryInput where
  | str (s : String)
  | dict (kvs : List (String × Option String))

def lookupKey : List (String × Option String) → String → Option (Option String)
  | [], _ => none
  | (k, v) :: rest, p => if k = p then some v else lookupKey rest p

/-- Modelled from the spec: one goal argument from a schema parameter. The
placeholder sentinel becomes a fresh variable named by capitalizing the
parameter name; a string value is classified by the lexical convention. -/
def buildArg (p : String) (v : Option String) : Term :=
  match v with
  | none => Term.var (capitalize p)
  | some s => classifyToken s.toList

def buildArgs (kvs : List (String × Option String)) : List String → Except QueryError (List Term)
  | [] => Except.ok []
  | p :: ps =>
    match lookupKey kvs p with
    | none => Except.error (QueryError.invalidInput p)
    | some v =>
      match buildArgs kvs ps with
      | Except.ok ts => Except.ok (buildArg p v :: ts)
      | Except.error e => Except.error e

/-- Modelled from the spec: goal construction from a schema instance, with
arguments joined in schema-declared parameter order. -/
def buildGoalFromDict (sch : QuerySchema) (kvs : List (String × Option String)) : Except QueryError Lit :=
  match buildArgs kvs sch.params with
  | Except.ok ts => Except.ok ⟨sch.pred, ts⟩
  | Except.error e => Except.error e

/-- Modelled from the spec: execute a goal and marshal the solution stream.
No syntactic free variable: execute once, boolean result. Free variables
present: enumerate to exhaustion; an empty enumeration reports `false`
(Scenario D), else one Binding per solution in enumeration order. -/
def runGoal (prog : List Clause) (g : Lit) : QueryResult :=
  let fv := freeVarNames g
  let sols := engineSolve prog g
  if fv = [] then QueryResult.bool (!sols.isEmpty)
  else if sols.isEmpty then QueryResult.bool false
  else QueryResult.bindings (sols.map (marshalSol fv))

/-- Modelled from the spec: `PrologRunnable.invoke`. A non-empty string is
a complete goal, unless a default predicate is configured, in which case it
is a bare comma-separated argument list; a mapping goes through the
configured schema. -/
def invoke (prog : List Clause) (cfg : PrologConfig) (inp : QueryInput) : Except QueryError QueryResult :=
  match inp with
  | QueryInput.str s =>
    if s = "" then Except.error QueryError.emptyQuery
    else
      match cfg.defaultPredicate with
      | some dp => Except.ok (runGoal prog (parseGoal (dp ++ "(" ++ s ++ ")")))
      | none => Except.ok (runGoal prog (parseGoal s))
  | QueryInput.dict kvs =>
    match cfg.querySchema with
    | none => Except.error (QueryError.invalidInput "input does not match a configured schema")
    | some sch =>
      match buildGoalFromDict sch kvs with
      | Except.ok g => Except.ok (runGoal prog g)
      | Except.error e => Except.error e

/-- Modelled from the spec: the process-wide engine session — the registry
of consulted rules-file paths, in load order. -/
structure EngineState where
  loads : List String
deriving DecidableEq

/-- Modelled from the spec: the clauses contributed by one rules file. -/
def fileProgram (path : String) : List Clause :=
  if path = "family.pl" then familyProgram else []

/-- Modelled from the spec: consult a rules file on configuration
construction — a no-op when the path was already loaded. -/
def loadRules (path : String) (st : EngineState) : EngineState :=
  if path ∈ st.loads then st else ⟨st.loads ++ [path]⟩

/-- The clause database of the loaded session. -/
def programOf (st : EngineState) : List Clause :=
  st.loads.flatMap fileProgram

/-- Modelled from the spec: stateful invocation against the shared session.
Query execution reads the session and never mutates it. -/
def invokeSt (st : EngineState) (cfg : PrologConfig) (inp : QueryInput) :
    (Except QueryError QueryResult) × EngineState :=
  (invoke (programOf st) cfg inp, st)

def initialState : EngineState := ⟨[]⟩

def famSession : EngineState := loadRules "family.pl" initialState

def famProg : List Clause := programOf famSession

def famConfigPlain : PrologConfig := ⟨"family.pl", none, none⟩

def famConfigDefault : PrologConfig := ⟨"family.pl", some "partner", none⟩

def partnerSchema : QuerySchema := ⟨"partner", ["man", "woman"]⟩

def famConfigSchema : PrologConfig := ⟨"family.pl", none, some partnerSchema⟩

/-- Modelled from the spec: the engine's enumeration of one query as seen by
the marshaller — the solutions yielded so far and, possibly, a Prolog-level
exception that ended the enumeration. -/
structure EngineStream (α : Type) where
  yielded : List α
  exn : Option PrologExn
deriving DecidableEq

/-- Modelled from the spec: marshalling an enumeration. An engine exception
is wrapped into `QueryError` with the original exception preserved, and the
solutions already yielded are discarded (all-or-nothing). -/
def wrapStream {α β : Type} (st : EngineStream α) (f : List α → β) : Except QueryError β :=
  match st.exn with
  | some e => Except.error (QueryError.engineError e)
  | none => Except.ok (f st.yielded)

/-- The enumeration of `query_route(QueryType, From, To, Options, Results)`
against the embedded `routes.pl`: the `must_be/2` guards raise type errors,
an unknown query type raises `invalid_query_type`, and otherwise the
`Results` solutions of `select_routes/3` are yielded. -/
def queryRouteStream (qt frmT dstT optsT : PTerm) : EngineStream (List RouteDict) :=
  if qt.isAtom = false then ⟨[], some (PrologExn.typeError "atom" qt)⟩
  else if frmT.isAtom = false then ⟨[], some (PrologExn.typeError "atom" frmT)⟩
  else if dstT.isAtom = false then ⟨[], some (PrologExn.typeError "atom" dstT)⟩
  else if optsT.isList = false then ⟨[], some (PrologExn.typeError "list" optsT)⟩
  else if qt.atomName ∈ ["all", "fastest", "cheapest"] then
    ⟨selectRoutes qt.atomName (allRoutesOf frmT.atomName dstT.atomName optsT.listOpts), none⟩
  else ⟨[], some (PrologExn.invalidQueryType qt)⟩

/-- A marshalled `query_route/5` outcome at the adapter boundary. -/
inductive RoutesResult where
  | bool (b : Bool)
  | sols (l : List (List RouteDict))
deriving DecidableEq

/-- Modelled from the spec: marshalling the `query_route/5` enumeration —
the goal has the free variable `Results`, so an empty enumeration reports
`false` and an exception is wrapped into `QueryError`. -/
def marshalRoutesStream (st : EngineStream (List RouteDict)) : Except QueryError RoutesResult :=
  match st.exn with
  | some e => Except.error (QueryError.engineError e)
  | none =>
    if st.yielded.isEmpty then Except.ok (RoutesResult.bool false)
    else Except.ok (RoutesResult.sols st.yielded)

/-! Helper lemmas. -/

theorem flatMapNilOf {α β : Type} (l : List α) (f : α → List β)
    (h : ∀ a ∈ l, f a = []) : l.flatMap f = [] := by
  induction l with
  | nil => rfl
  | cons x xs ih =>
    show f x ++ xs.flatMap f = []
    rw [h x (by simp), ih (fun a ha => h a (by simp [ha]))]
    rfl

theorem flatMapCongr {α β : Type} (l : List α) (f g : α → List β)
    (h : ∀ a ∈ l, f a = g a) : l.flatMap f = l.flatMap g := by
  induction l with
  | nil => rfl
  | cons x xs ih =>
    show f x ++ xs.flatMap f = g x ++ xs.flatMap g
    rw [h x (by simp), ih (fun a ha => h a (by simp [ha]))]

theorem dedupFirstAux_of_nodup :
    ∀ (l seen : List String), l.Nodup → (∀ x ∈ l, x ∉ seen) →
      dedupFirstAux seen l = l := by
  intro l
  induction l with
  | nil => intro seen _ _; rfl
  | cons x xs ih =>
    intro seen hnd hdis
    obtain ⟨hx, hxs⟩ := List.nodup_cons.mp hnd
    rw [dedupFirstAux, if_neg (hdis x (by simp))]
    rw [ih (x :: seen) hxs]
    intro y hy
    rw [List.mem_cons]
    rintro (rfl | hmem)
    · exact hx hy
    · exact hdis y (by simp [hy]) hmem

theorem dedupFirst_of_nodup (l : List String) (h : l.Nodup) : dedupFirst l = l :=
  dedupFirstAux_of_nodup l [] h (by simp)

theorem marshalSol_keys (fv : List String) (s : Subst) :
    (marshalSol fv s).map Prod.fst = fv := by
  induction fv with
  | nil => rfl
  | cons v vs ih =>
    show (v, termVal (resolve s (Term.var v))).1 :: (marshalSol vs s).map Prod.fst = v :: vs
    rw [ih]

theorem buildArgs_all_placeholder :
    ∀ (params : List String) (kvs : List (String × Option String)),
      (∀ p ∈ params, lookupKey kvs p = some none) →
      buildArgs kvs params = Except.ok (params.map (fun p => Term.var (capitalize p))) := by
  intro params
  induction params with
  | nil => intro kvs _; rfl
  | cons p ps ih =>
    intro kvs h
    rw [buildArgs, h p (by simp), ih kvs (fun q hq => h q (by simp [hq]))]
    rfl

theorem filterMap_fvArg_capitalized :
    ∀ (params : List String),
      (∀ p ∈ params, startsUnderscore (capitalize p) = false) →
      (params.map (fun p => Term.var (capitalize p))).filterMap fvArg =
        params.map capitalize := by
  intro params
  induction params with
  | nil => intro _; rfl
  | cons p ps ih =>
    intro h
    rw [List.map_cons, List.filterMap_cons, List.map_cons]
    rw [show fvArg (Term.var (capitalize p)) = some (capitalize p) from by
      rw [fvArg, h p (by simp)]; rfl]
    rw [ih (fun q hq => h q (by simp [hq]))]

theorem freeVarNames_capitalized (pr : String) (params : List String)
    (h1 : ∀ p ∈ params, startsUnderscore (capitalize p) = false)
    (h2 : (params.map capitalize).Nodup) :
    freeVarNames ⟨pr, params.map (fun p => Term.var (capitalize p))⟩ =
      params.map capitalize := by
  rw [freeVarNames]
  rw [show Lit.args ⟨pr, params.map (fun p => Term.var (capitalize p))⟩ =
    params.map (fun p => Term.var (capitalize p)) from rfl]
  rw [filterMap_fvArg_capitalized params h1]
  exact dedupFirst_of_nodup _ h2

theorem connections_irrefl : ∀ c ∈ connections, c.1 ≠ c.2.1 := by decide

theorem validConnBetween_self (c : City) : validConnBetween c c = [] := by
  rw [validConnBetween]
  have h : ∀ a ∈ connections,
      (if a.1 = c ∧ a.2.1 = c then some a.2.2 else none) = none := by
    intro a ha
    rw [if_neg]
    rintro ⟨h1, h2⟩
    exact connections_irrefl a ha (h1.trans h2.symm)
  rw [List.filterMap_eq_nil_iff.mpr h]
  rfl

theorem findRoute_self :
    ∀ (fuel : Nat) (c : City) (visited : List City) (acc : List Transport),
      c ∈ visited → findRoute fuel c c visited acc = [] := by
  intro fuel
  induction fuel with
  | zero => intro c visited acc _; rfl
  | succ fuel _ =>
    intro c visited acc hc
    rw [findRoute, validConnBetween_self, List.map_nil]
    rw [flatMapNilOf]
    · rfl
    intro nt _
    by_cases h1 : nt.1 ∈ visited
    · rw [if_pos h1]
    · rw [if_neg h1, if_pos hc]

theorem findRoute_fuel_step :
    ∀ (f : Nat) (frm dst : City) (visited : List City) (acc : List Transport),
      6 ≤ visited.length + f → visited.length ≤ 5 →
      findRoute f frm dst visited acc = findRoute (f + 1) frm dst visited acc := by
  intro f
  induction f with
  | zero => intro frm dst visited acc h1 h2; omega
  | succ f ih =>
    intro frm dst visited acc h1 h2
    rw [findRoute, findRoute]
    congr 1
    apply flatMapCongr
    intro nt _
    by_cases hv : nt.1 ∈ visited
    · rw [if_pos hv, if_pos hv]
    rw [if_neg hv, if_neg hv]
    by_cases hd : dst ∈ visited
    · rw [if_pos hd, if_pos hd]
    rw [if_neg hd, if_neg hd]
    by_cases hl : visited.length < 5
    · rw [if_pos hl, if_pos hl, ih nt.1 dst (nt.1 :: visited) (acc ++ [nt.2])
        (by simp; omega) (by simp; omega)]
    · rw [if_neg hl, if_neg hl]

theorem findRoute_fuel_stable (f : Nat) (h : 5 ≤ f) (frm dst : City) :
    findRoute f frm dst [frm] [] = routeSols frm dst := by
  rw [routeSols]
  obtain ⟨n, rfl⟩ : ∃ n, f = 5 + n := ⟨f - 5, by omega⟩
  induction n with
  | zero => exact findRoute_fuel_step 5 frm dst [frm] [] (by simp) (by simp)
  | succ n ih =>
    rw [show 5 + (n + 1) = (5 + n) + 1 from by omega]
    rw [← findRoute_fuel_step (5 + n) frm dst [frm] [] (by simp; omega) (by simp)]
    exact ih (by omega)

theorem findRoute_spec :
    ∀ (fuel : Nat) (frm dst : City) (visited : List City) (acc : List Transport)
      (r : List City) (q1 q2 : ℚ) (tr : List Transport),
      frm ∈ visited → dst ∉ visited → visited.Nodup → visited.length ≤ 5 →
      (r, q1, q2, tr) ∈ findRoute fuel frm dst visited acc →
      (∃ tail, r = frm :: tail ∧ ∀ x ∈ tail, x ∉ visited) ∧
        r.Nodup ∧ r.length + visited.length ≤ 7 := by
  intro fuel
  induction fuel with
  | zero =>
    intro frm dst visited acc r q1 q2 tr _ _ _ _ hmem
    simp [findRoute] at hmem
  | succ fuel ih =>
    intro frm dst visited acc r q1 q2 tr hfrm hdst hnd hlen hmem
    rw [findRoute] at hmem
    rcases List.mem_append.mp hmem with hbase | hrec
    · rcases List.mem_map.mp hbase with ⟨t, _, heq⟩
      rw [Prod.mk.injEq, Prod.mk.injEq, Prod.mk.injEq] at heq
      obtain ⟨h1, _, _, _⟩ := heq
      subst h1
      have hne : frm ≠ dst := fun h => hdst (h ▸ hfrm)
      refine ⟨⟨[dst], rfl, ?_⟩, ?_, ?_⟩
      · intro x hx
        rw [List.mem_singleton] at hx
        exact hx ▸ hdst
      · simp [hne]
      · simp; omega
    · rcases List.mem_flatMap.mp hrec with ⟨nt, hnt, hmem2⟩
      by_cases h1 : nt.1 ∈ visited
      · rw [if_pos h1] at hmem2; simp at hmem2
      rw [if_neg h1, if_neg hdst] at hmem2
      by_cases h3 : visited.length < 5
      swap
      · rw [if_neg h3] at hmem2; simp at hmem2
      rw [if_pos h3] at hmem2
      rcases List.mem_map.mp hmem2 with ⟨s, hs, heq⟩
      rw [Prod.mk.injEq, Prod.mk.injEq, Prod.mk.injEq] at heq
      obtain ⟨h4, _, _, _⟩ := heq
      subst h4
      by_cases hND : nt.1 = dst
      · rw [hND, findRoute_self fuel dst (dst :: visited) _ (by simp)] at hs
        simp at hs
      have hihyp := ih nt.1 dst (nt.1 :: visited) (acc ++ [nt.2]) s.1 s.2.1 s.2.2.1 s.2.2.2
        (by simp)
        (by
          rw [List.mem_cons]
          rintro (h | h)
          · exact hND h.symm
          · exact hdst h)
        (List.nodup_cons.mpr ⟨h1, hnd⟩)
        (by simp; omega)
        hs
      obtain ⟨⟨tail2, hstail, htail2⟩, hsnd, hslen⟩ := hihyp
      refine ⟨⟨s.1, rfl, ?_⟩, ?_, ?_⟩
      · intro x hx
        rw [hstail, List.mem_cons] at hx
        rcases hx with rfl | hx
        · exact h1
        · intro hxv
          exact htail2 x hx (by simp [hxv])
      · rw [List.nodup_cons]
        refine ⟨?_, hsnd⟩
        intro hfs
        rw [hstail, List.mem_cons] at hfs
        rcases hfs with h | h
        · exact h1 (h ▸ hfrm)
        · exact htail2 frm h (by simp [hfrm])
      · rw [List.length_cons]
        rw [List.length_cons] at hslen
        omega

/-! Claim theorems. -/

/-- C1, counterexample to the claim as stated: `parent(nobody, nobody, X)`
is a goal with at least one free variable, yet invoke's result is not the
list of one Binding per engine solution (the empty list here) — the
unsatisfiable goal reports the boolean `false` instead. -/
theorem C1_counterexample :
    freeVarNames (parseGoal "parent(nobody, nobody, X)") ≠ [] ∧
    runGoal famProg (parseGoal "parent(nobody, nobody, X)") ≠
      QueryResult.bindings
        ((engineSolve famProg (parseGoal "parent(nobody, nobody, X)")).map
          (marshalSol (freeVarNames (parseGoal "parent(nobody, nobody, X)")))) := by
  constructor
  · decide
  · decide

/-- C1, amended: for every goal with at least one free variable and at
least one engine solution, invoke returns one Binding per engine solution,
in engine enumeration order, with duplicate identical bindings preserved;
in particular, on the family rules file the query string `partner(X, Y)`
with no default predicate returns exactly the three documented bindings
with the duplicate kept. -/
theorem C1_bindings_per_solution :
    (∀ (prog : List Clause) (g : Lit),
      freeVarNames g ≠ [] → engineSolve prog g ≠ [] →
      runGoal prog g =
        QueryResult.bindings ((engineSolve prog g).map (marshalSol (freeVarNames g)))) ∧
    invoke famProg famConfigPlain (QueryInput.str "partner(X, Y)") =
      Except.ok (QueryResult.bindings
        [[("X", "john"), ("Y", "bianca")],
         [("X", "john"), ("Y", "bianca")],
         [("X", "peter"), ("Y", "patricia")]]) := by
  constructor
  · intro prog g h1 h2
    rw [runGoal]
    rw [if_neg h1, if_neg (by simp [h2])]
  · rfl

/-- C1 witness: the amended statement applied to the family program and the
parsed goal `partner(X, Y)`, whose hypotheses hold by evaluation. -/
theorem C1_bindings_per_solution_witness :
    runGoal famProg (parseGoal "partner(X, Y)") =
      QueryResult.bindings
        ((engineSolve famProg (parseGoal "partner(X, Y)")).map
          (marshalSol (freeVarNames (parseGoal "partner(X, Y)")))) :=
  C1_bindings_per_solution.1 famProg (parseGoal "partner(X, Y)") (by decide) (by decide)

/-- C2: for every goal with zero syntactic free-variable occurrences,
invoke executes the goal once and returns exactly a boolean — the success
of the single execution — and never a list of bindings. -/
theorem C2_ground_goal_boolean :
    ∀ (prog : List Clause) (g : Lit), freeVarNames g = [] →
      runGoal prog g = QueryResult.bool (!(engineSolve prog g).isEmpty) ∧
      ∀ l, runGoal prog g ≠ QueryResult.bindings l := by
  intro prog g h
  have hb : runGoal prog g = QueryResult.bool (!(engineSolve prog g).isEmpty) := by
    rw [runGoal, if_pos h]
  exact ⟨hb, fun l hl => by rw [hb] at hl; exact QueryResult.noConfusion hl⟩

/-- C2 witness: the ground goal `partner(john, bianca)` has no free
variable and evaluates to the boolean `true`. -/
theorem C2_ground_goal_boolean_witness :
    runGoal famProg (parseGoal "partner(john, bianca)") = QueryResult.bool true :=
  ((C2_ground_goal_boolean famProg (parseGoal "partner(john, bianca)") (by decide)).1).trans
    (by decide)

/-- C3: every unsatisfiable goal reports the literal boolean `false` — in
both the no-free-variable branch and the free-variable branch (where the
claim notes the result-union definition attaches `false` only to goals
without free variables); in particular `parent(nobody, nobody, X)`, which
has a free variable, yields `false` and not an empty binding list. -/
theorem C3_unsat_goal_false :
    (∀ (prog : List Clause) (g : Lit), engineSolve prog g = [] →
      runGoal prog g = QueryResult.bool false) ∧
    invoke famProg famConfigPlain (QueryInput.str "parent(nobody, nobody, X)") =
      Except.ok (QueryResult.bool false) ∧
    freeVarNames (parseGoal "parent(nobody, nobody, X)") ≠ [] := by
  refine ⟨?_, rfl, by decide⟩
  intro prog g h
  rw [runGoal, h]
  simp

/-- C3 witness: the first part applied to the family program and the
unsatisfiable goal `parent(nobody, nobody, X)`. -/
theorem C3_unsat_goal_false_witness :
    runGoal famProg (parseGoal "parent(nobody, nobody, X)") = QueryResult.bool false :=
  C3_unsat_goal_false.1 famProg (parseGoal "parent(nobody, nobody, X)") (by decide)

/-- C4: the placeholder round-trip. Every schema parameter whose input
value is the placeholder sentinel becomes a Prolog variable named by
capitalizing the parameter name; marshalling then yields Binding keys equal
to those capitalized names; and concretely, schema `partner(man, woman)`
with input `{man: placeholder, woman: "bianca"}` produces the goal
`partner(Man, bianca)` and the documented result. -/
theorem C4_placeholder_roundtrip :
    (∀ (sch : QuerySchema) (kvs : List (String × Option String)),
      (∀ p ∈ sch.params, lookupKey kvs p = some none) →
      buildGoalFromDict sch kvs =
        Except.ok ⟨sch.pred, sch.params.map (fun p => Term.var (capitalize p))⟩) ∧
    (∀ (sch : QuerySchema) (kvs : List (String × Option String)) (s : Subst) (g : Lit),
      (∀ p ∈ sch.params, lookupKey kvs p = some none) →
      (∀ p ∈ sch.params, startsUnderscore (capitalize p) = false) →
      (sch.params.map capitalize).Nodup →
      buildGoalFromDict sch kvs = Except.ok g →
      (marshalSol (freeVarNames g) s).map Prod.fst = sch.params.map capitalize) ∧
    buildGoalFromDict partnerSchema [("man", none), ("woman", some "bianca")] =
      Except.ok ⟨"partner", [Term.var "Man", Term.const "bianca"]⟩ ∧
    invoke famProg famConfigSchema (QueryInput.dict [("man", none), ("woman", some "bianca")]) =
      Except.ok (QueryResult.bindings [[("Man", "john")], [("Man", "john")]]) := by
  have hbuild : ∀ (sch : QuerySchema) (kvs : List (String × Option String)),
      (∀ p ∈ sch.params, lookupKey kvs p = some none) →
      buildGoalFromDict sch kvs =
        Except.ok ⟨sch.pred, sch.params.map (fun p => Term.var (capitalize p))⟩ := by
    intro sch kvs h
    rw [buildGoalFromDict, buildArgs_all_placeholder sch.params kvs h]
  refine ⟨hbuild, ?_, rfl, rfl⟩
  intro sch kvs s g hph hus hnd hg
  rw [hbuild sch kvs hph] at hg
  injection hg with hg
  subst hg
  rw [freeVarNames_capitalized sch.pred sch.params hus hnd, marshalSol_keys]

/-- C4 witness: the round-trip parts applied to the `partner` schema with
every field the placeholder sentinel — the goal is `partner(Man, Woman)`
and the Binding keys are exactly the capitalized parameter names. -/
theorem C4_placeholder_roundtrip_witness :
    buildGoalFromDict partnerSchema [("man", none), ("woman", none)] =
      Except.ok ⟨"partner", [Term.var "Man", Term.var "Woman"]⟩ ∧
    (marshalSol (freeVarNames ⟨"partner", [Term.var "Man", Term.var "Woman"]⟩) []).map Prod.fst =
      ["Man", "Woman"] := by
  constructor
  · exact (C4_placeholder_roundtrip.1 partnerSchema [("man", none), ("woman", none)]
      (by decide)).trans rfl
  · exact (C4_placeholder_roundtrip.2.1 partnerSchema [("man", none), ("woman", none)] []
      ⟨"partner", [Term.var "Man", Term.var "Woman"]⟩ (by decide) (by decide) (by decide)
      ((C4_placeholder_roundtrip.1 partnerSchema [("man", none), ("woman", none)]
        (by decide)).trans rfl)).trans (by decide)

/-- C5: with a default predicate configured, every non-empty input string
is treated as a bare comma-separated argument list and the submitted goal
is exactly `defaultPredicate(args)`; concretely, default predicate
`partner` with input `peter, X` yields `[{X: patricia}]`. -/
theorem C5_default_predicate_goal :
    (∀ (prog : List Clause) (cfg : PrologConfig) (dp s : String),
      cfg.defaultPredicate = some dp → s ≠ "" →
      invoke prog cfg (QueryInput.str s) =
        Except.ok (runGoal prog (parseGoal (dp ++ "(" ++ s ++ ")")))) ∧
    invoke famProg famConfigDefault (QueryInput.str "peter, X") =
      Except.ok (QueryResult.bindings [[("X", "patricia")]]) := by
  constructor
  · intro prog cfg dp s hdp hs
    rw [invoke, if_neg hs, hdp]
  · rfl

/-- C5 witness: the general statement applied to the family program with
default predicate `partner` and the non-empty input string `peter, X`. -/
theorem C5_default_predicate_goal_witness :
    invoke famProg famConfigDefault (QueryInput.str "peter, X") =
      Except.ok (runGoal famProg (parseGoal ("partner" ++ "(" ++ "peter, X" ++ ")"))) :=
  C5_default_predicate_goal.1 famProg famConfigDefault "partner" "peter, X" rfl (by decide)

/-- C7: consulting the same rules file path through two separate
configuration objects raises no error and is idempotent — the second load
is a no-op, the path is consulted at most once (registered exactly once),
and any solution query (hence any solution count) on the loaded program is
unchanged by the second load. -/
theorem C7_load_idempotent :
    ∀ (path : String) (st : EngineState),
      loadRules path (loadRules path st) = loadRules path st ∧
      (st.loads.Nodup →
        (loadRules path st).loads.Nodup ∧ (loadRules path st).loads.count path = 1) ∧
      (∀ g : Lit,
        engineSolve (programOf (loadRules path (loadRules path st))) g =
          engineSolve (programOf (loadRules path st)) g) := by
  intro path st
  have hid : loadRules path (loadRules path st) = loadRules path st := by
    by_cases h : path ∈ st.loads
    · simp [loadRules, h]
    · have hmem : path ∈ (loadRules path st).loads := by
        rw [loadRules, if_neg h]; simp
      conv_lhs => rw [loadRules]
      rw [if_pos hmem]
  refine ⟨hid, ?_, fun g => by rw [hid]⟩
  intro hnd
  by_cases h : path ∈ st.loads
  · rw [loadRules, if_pos h]
    exact ⟨hnd, List.count_eq_one_of_mem hnd h⟩
  · rw [loadRules, if_neg h]
    constructor
    · rw [show EngineState.loads ⟨st.loads ++ [path]⟩ = st.loads ++ [path] from rfl]
      rw [List.nodup_append]
      exact ⟨hnd, List.nodup_singleton path, by simp [List.disjoint_singleton, h]⟩
    · rw [show EngineState.loads ⟨st.loads ++ [path]⟩ = st.loads ++ [path] from rfl]
      rw [List.count_append, List.count_eq_zero_of_not_mem h]
      simp

/-- C7 witness: loading `family.pl` twice from the empty session registers
it once, keeps the registry duplicate-free, and leaves the solutions of the
count query `partner(X, Y)` unchanged. -/
theorem C7_load_idempotent_witness :
    (loadRules "family.pl" initialState).loads.Nodup ∧
    (loadRules "family.pl" initialState).loads.count "family.pl" = 1 ∧
    engineSolve (programOf (loadRules "family.pl" (loadRules "family.pl" initialState)))
        (parseGoal "partner(X, Y)") =
      engineSolve (programOf (loadRules "family.pl" initialState)) (parseGoal "partner(X, Y)") :=
  ⟨((C7_load_idempotent "family.pl" initialState).2.1 (by decide)).1,
   ((C7_load_idempotent "family.pl" initialState).2.1 (by decide)).2,
   (C7_load_idempotent "family.pl" initialState).2.2 (parseGoal "partner(X, Y)")⟩

/-- C8: for a fixed session, configuration and goal, query execution reads
the session and never mutates it, so an immediate re-execution of the same
query returns an identical QueryResult, including binding order and
multiplicity. -/
theorem C8_deterministic_requery :
    ∀ (st : EngineState) (cfg : PrologConfig) (inp : QueryInput),
      (invokeSt st cfg inp).2 = st ∧
      (invokeSt ((invokeSt st cfg inp).2) cfg inp).1 = (invokeSt st cfg inp).1 :=
  fun _ _ _ => ⟨rfl, rfl⟩

/-- C6: a Prolog-level engine exception during enumeration is wrapped into
`QueryError` with the original exception preserved and is never propagated
raw; solutions already yielded are discarded (the result is the same as if
none had been yielded); concretely, the `must_be(atom, QueryType)` guard of
`query_route/5` on a non-atom argument surfaces as a wrapped type error;
and execution never mutates the session, so subsequent calls behave as if
the failing call had not happened. -/
theorem C6_engine_exception_wrapped :
    (∀ (α β : Type) (f : List α → β) (ys : List α) (e : PrologExn),
      wrapStream ⟨ys, some e⟩ f = Except.error (QueryError.engineError e) ∧
      wrapStream ⟨ys, some e⟩ f = wrapStream (⟨[], some e⟩ : EngineStream α) f) ∧
    queryRouteStream (PTerm.pnum 3) (PTerm.patom "paris") (PTerm.patom "lisbon")
        (PTerm.plist []) =
      ⟨[], some (PrologExn.typeError "atom" (PTerm.pnum 3))⟩ ∧
    marshalRoutesStream (queryRouteStream (PTerm.pnum 3) (PTerm.patom "paris")
        (PTerm.patom "lisbon") (PTerm.plist [])) =
      Except.error (QueryError.engineError (PrologExn.typeError "atom" (PTerm.pnum 3))) ∧
    (∀ (st : EngineState) (cfg : PrologConfig) (inp1 inp2 : QueryInput),
      invokeSt ((invokeSt st cfg inp1).2) cfg inp2 = invokeSt st cfg inp2) :=
  ⟨fun _ _ _ _ _ => ⟨rfl, rfl⟩, rfl, rfl, fun _ _ _ _ => rfl⟩

/-- C9: every solution of `route(From, To, Route, Details)` in the example
routes module binds `Route` to a list of pairwise-distinct cities of length
at most 6, because the recursive search rejects any next city already in
the visited list and only recurses while fewer than 5 cities are visited. -/
theorem C9_route_nodup_bounded :
    ∀ (frm dst : City) (r : List City) (q1 q2 : ℚ) (tr : List Transport),
      (r, q1, q2, tr) ∈ routeSols frm dst → r.Nodup ∧ r.length ≤ 6 := by
  intro frm dst r q1 q2 tr hmem
  by_cases h : frm = dst
  · subst h
    rw [routeSols, findRoute_self 6 frm [frm] [] (by simp)] at hmem
    simp at hmem
  · have hres := findRoute_spec 6 frm dst [frm] [] r q1 q2 tr (by simp)
      (by rw [List.mem_singleton]; exact fun hh => h hh.symm) (by simp) (by simp) hmem
    obtain ⟨_, hnd, hlen⟩ := hres
    refine ⟨hnd, ?_⟩
    rw [List.length_singleton] at hlen
    omega

/-- C9 witness: the direct london–paris train route is a concrete solution,
and the theorem yields its distinctness and length bound. -/
theorem C9_route_nodup_bounded_witness :
    ((["london", "paris"], twoPointFive, (150 : ℚ),
        [(⟨"train", twoPointFive, 150⟩ : Transport)]) ∈ routeSols "london" "paris") ∧
    (["london", "paris"] : List City).Nodup ∧ (["london", "paris"] : List City).length ≤ 6 :=
  ⟨by decide,
   C9_route_nodup_bounded "london" "paris" ["london", "paris"] twoPointFive 150
     [⟨"train", twoPointFive, 150⟩] (by decide)⟩

/-- C10: `query_route(all, From, To, Options, Results)` never binds
`Results` to the empty list — `select_routes(all, ...)` only matches a
non-empty found-routes list — and when no route satisfies the options the
goal fails, so the adapter reports the boolean `false` rather than `[]`. -/
theorem C10_all_results_nonempty :
    (∀ (frm dst : City) (opts : List RouteOption) (res : List RouteDict),
      res ∈ selectRoutes "all" (allRoutesOf frm dst opts) → res ≠ []) ∧
    (∀ (frm dst : City) (opts : List RouteOption),
      allRoutesOf frm dst opts = [] →
      marshalRoutesStream (queryRouteStream (PTerm.patom "all") (PTerm.patom frm)
        (PTerm.patom dst) (PTerm.plist opts)) = Except.ok (RoutesResult.bool false)) := by
  constructor
  · intro frm dst opts res hres
    cases hall : allRoutesOf frm dst opts with
    | nil =>
      rw [hall] at hres
      exact absurd hres (by simp [selectRoutes])
    | cons r rest =>
      rw [hall] at hres
      rw [show selectRoutes "all" (r :: rest) = [r :: rest] from rfl,
        List.mem_singleton] at hres
      subst hres
      exact List.cons_ne_nil r rest
  · intro frm dst opts h
    have hq : queryRouteStream (PTerm.patom "all") (PTerm.patom frm) (PTerm.patom dst)
        (PTerm.plist opts) =
        ⟨selectRoutes "all" (allRoutesOf frm dst opts), none⟩ := rfl
    rw [hq, h]
    rfl

/-- C10 witness: london–paris with no options has found routes, and the
theorem applied to the full found-routes list shows the bound `Results`
value is non-empty. -/
theorem C10_all_results_nonempty_witness :
    allRoutesOf "london" "paris" [] ≠ [] :=
  C10_all_results_nonempty.1 "london" "paris" [] (allRoutesOf "london" "paris" []) (by decide)

end LangchainProlog
